import Mathlib

/-!
Verification of the SoundCraft DSP core against its specification.

The TypeScript sources modelled here are `src/utils/audioProcessor.ts`,
`src/utils/phonemeDetector.ts` and `src/hooks/useAudioAnalyzer.ts`.
Sample buffers (JS `Float32Array`) are modelled as `List ℝ`; JS `number`
arithmetic is modelled by real arithmetic (so there is no NaN value: the
places where the JS code can produce NaN through 0/0 are marked in
comments and discussed where a claim depends on them).  The external
library `fft-js` is modelled by the mathematical discrete Fourier
transform it computes on power-of-two-length signals; `fft`/`ifft` throw
outside that domain, which is modelled by `Except`.
-/

namespace SoundCraft

open Real List

/-! ## audioProcessor.ts -/

/-- `applyHannWindow` (audioProcessor.ts line 28): each sample is multiplied by
`0.5 * (1 - cos((2 * PI * i) / (data.length - 1)))`.  For `data.length = 1` the
JS code divides 0 by 0 (yielding NaN); real division-by-zero yields 0 here. -/
noncomputable def applyHannWindow (data : List ℝ) : List ℝ :=
  data.mapIdx fun i x =>
    x * (0.5 * (1 - Real.cos ((2 * Real.pi * (i : ℝ)) / ((data.length : ℝ) - 1))))

/-- `Math.pow(2, Math.floor(Math.log2(len)))` (audioProcessor.ts line 9); JS
yields `2 ^ -Infinity = 0` when `len = 0`. -/
def fftSizeOf (len : ℕ) : ℕ := if len = 0 then 0 else 2 ^ Nat.log 2 len

/-- Real part of bin `k` of the discrete Fourier transform — the mathematical
function the external `fft-js` `fft` computes on power-of-two-length input. -/
noncomputable def dftRe (xs : List ℝ) (k : ℕ) : ℝ :=
  ∑ n ∈ Finset.range xs.length,
    xs.getD n 0 * Real.cos (2 * Real.pi * (k : ℝ) * (n : ℝ) / (xs.length : ℝ))

/-- Imaginary part of bin `k` of the discrete Fourier transform. -/
noncomputable def dftIm (xs : List ℝ) (k : ℕ) : ℝ :=
  -∑ n ∈ Finset.range xs.length,
    xs.getD n 0 * Real.sin (2 * Real.pi * (k : ℝ) * (n : ℝ) / (xs.length : ℝ))

/-- The full transform: one `(re, im)` phasor per input index. -/
noncomputable def dft (xs : List ℝ) : List (ℝ × ℝ) :=
  (List.range xs.length).map fun k => (dftRe xs k, dftIm xs k)

/-- `n` is a power of two (the input-length domain of `fft-js`). -/
def isPow2 (n : ℕ) : Bool := n = 2 ^ Nat.log 2 n

/-- The external `fft` call as used inside `pitchShift`: it throws (modelled by
`Except.error`) when the signal length is not a power of two. -/
noncomputable def fftE (xs : List ℝ) : Except Unit (List (ℝ × ℝ)) :=
  if isPow2 xs.length then .ok (dft xs) else .error ()

/-- Real part of bin `n` of the inverse transform computed by `fft-js` `ifft`
(with the `1/N` normalisation that library applies). -/
noncomputable def idftRe (xs : List (ℝ × ℝ)) (n : ℕ) : ℝ :=
  (∑ k ∈ Finset.range xs.length,
      ((xs.getD k (0, 0)).1 * Real.cos (2 * Real.pi * (k : ℝ) * (n : ℝ) / (xs.length : ℝ)) -
        (xs.getD k (0, 0)).2 * Real.sin (2 * Real.pi * (k : ℝ) * (n : ℝ) / (xs.length : ℝ)))) /
    (xs.length : ℝ)

/-- Imaginary part of bin `n` of the inverse transform. -/
noncomputable def idftIm (xs : List (ℝ × ℝ)) (n : ℕ) : ℝ :=
  (∑ k ∈ Finset.range xs.length,
      ((xs.getD k (0, 0)).1 * Real.sin (2 * Real.pi * (k : ℝ) * (n : ℝ) / (xs.length : ℝ)) +
        (xs.getD k (0, 0)).2 * Real.cos (2 * Real.pi * (k : ℝ) * (n : ℝ) / (xs.length : ℝ)))) /
    (xs.length : ℝ)

/-- The inverse transform (complex output, as `fft-js` returns it). -/
noncomputable def idft (xs : List (ℝ × ℝ)) : List (ℝ × ℝ) :=
  (List.range xs.length).map fun n => (idftRe xs n, idftIm xs n)

/-- The external `ifft` call; throws outside the power-of-two domain. -/
noncomputable def ifftE (xs : List (ℝ × ℝ)) : Except Unit (List (ℝ × ℝ)) :=
  if isPow2 xs.length then .ok (idft xs) else .error ()

/-- The result type of `analyzeFrequency`. -/
structure Spectrum where
  frequencies : List ℝ
  magnitudes : List ℝ

/-- The signal actually transformed by `analyzeFrequency` (lines 8-11): the Hann
windowed buffer written into a fresh zero `Float32Array(fftSize)`, i.e. its
first `fftSize` samples (always at least `fftSize` are available). -/
noncomputable def windowedSignal (audioData : List ℝ) : List ℝ :=
  let windowedData := applyHannWindow audioData
  let fftSize := fftSizeOf audioData.length
  (windowedData.take fftSize) ++
    List.replicate (fftSize - (windowedData.take fftSize).length) 0

/-- `analyzeFrequency` (audioProcessor.ts line 6).  The external `fft` is
modelled by the total `dft`: every call from this repository passes a
power-of-two-length signal, except the empty signal (empty buffer), whose
transform output is never read because `fftSize / 2 = 0`.
`Array.from({length: fftSize / 2})` truncates, i.e. natural division; the
magnitude divisor `fftSize / 2` is JS real division.  `isNaN(mag) ? 0 : mag`
(line 21) is inert here: real `sqrt`/division never produce NaN. -/
noncomputable def analyzeFrequency (audioData : List ℝ) (sampleRate : ℝ) : Spectrum :=
  let fftSize := fftSizeOf audioData.length
  let phasors := dft (windowedSignal audioData)
  let frequencies := (List.range (fftSize / 2)).map fun (i : ℕ) =>
    ((i : ℝ) * sampleRate) / (fftSize : ℝ)
  let magnitudes := (List.range (fftSize / 2)).map fun i =>
    Real.sqrt ((phasors.getD i (0, 0)).1 ^ 2 + (phasors.getD i (0, 0)).2 ^ 2) /
      ((fftSize : ℝ) / 2)
  ⟨frequencies, magnitudes⟩

/-- One entry of the `peaks` array of `detectPitch` (audioProcessor.ts line 51). -/
structure Peak where
  freq : ℝ
  value : ℝ

/-- The `peaks` array built by `detectPitch` (lines 41-56): harmonic product
spectrum over the amplified magnitudes, then the local maxima above `0.001`,
collected in ascending bin order. -/
noncomputable def peaksOf (audioData : List ℝ) (sampleRate : ℝ) : List Peak :=
  let s := analyzeFrequency audioData sampleRate
  let amplifiedMagnitudes := s.magnitudes.map fun m => m * 100000
  let n := s.frequencies.length
  let a := fun j => amplifiedMagnitudes.getD j 0
  let hps := fun i =>
    let h1 := a i
    let h2 := if i * 2 < n then h1 * a (i * 2) else h1
    if i * 3 < n then h2 * a (i * 3) else h2
  ((List.range n).filter fun i =>
      decide (1 ≤ i) && decide (i + 1 < n) && decide (hps (i - 1) < hps i) &&
        decide (hps (i + 1) < hps i) && decide ((0.001 : ℝ) < hps i)).map
    fun i => ⟨s.frequencies.getD i 0, hps i⟩

/-- Stable insertion of a peak into a list sorted by `value` descending.  The
JS `peaks.sort((a, b) => b.value - a.value)` is (per ES2019) a stable sort by
`value` descending; `insertDesc`/`sortDesc` compute exactly that result:
an element moves before another only when its value is strictly larger. -/
noncomputable def insertDesc (x : Peak) : List Peak → List Peak
  | [] => [x]
  | y :: ys => if x.value < y.value then y :: insertDesc x ys else x :: y :: ys

/-- Stable descending sort by `value` (the result of the JS `sort` call). -/
noncomputable def sortDesc : List Peak → List Peak
  | [] => []
  | x :: xs => insertDesc x (sortDesc xs)

/-- JS `x || y` applied to an optional number (`peaks.find(...)?.freq || ...`):
`undefined` and `0` are falsy, so both select the fallback. -/
noncomputable def jsOrZero (x : Option ℝ) (y : ℝ) : ℝ :=
  match x with
  | none => y
  | some v => if v = 0 then y else v

/-- The voice-band test of line 59: `p.freq >= 50 && p.freq <= 500`. -/
noncomputable def bandPred : Peak → Bool := fun p =>
  decide (50 ≤ p.freq) && decide (p.freq ≤ 500)

/-- `detectPitch` (audioProcessor.ts line 37):
`peaks.find(inBand)?.freq || peaks[0]?.freq || 0` over the sorted peaks. -/
noncomputable def detectPitch (audioData : List ℝ) (sampleRate : ℝ) : ℝ :=
  let sorted := sortDesc (peaksOf audioData sampleRate)
  jsOrZero ((sorted.find? bandPred).map Peak.freq)
    (jsOrZero (sorted.head?.map Peak.freq) 0)

/-- First-occurrence maximum by `value`: among elements of maximal `value` it
returns the earliest (peaks are generated in ascending frequency order, so the
earliest is the one with the lower frequency).  This is the claim-side
selection rule ("ranked by hps value descending, ties in favour of the lower
frequency"). -/
noncomputable def argmaxFirst : List Peak → Option Peak
  | [] => none
  | x :: xs =>
    match argmaxFirst xs with
    | none => some x
    | some y => if x.value < y.value then some y else some x

/-- The claim-side description of the pitch choice: the best in-band candidate,
else the best candidate overall, else 0. -/
noncomputable def claimSelectPitch (peaks : List Peak) : ℝ :=
  match argmaxFirst (peaks.filter bandPred) with
  | some p => p.freq
  | none =>
    match argmaxFirst peaks with
    | some p => p.freq
    | none => 0

/-- The RMS computed by `getAmplitude` (audioProcessor.ts line 65).  On the
empty buffer the JS code divides 0 by 0 (NaN); real division yields 0. -/
noncomputable def rmsOf (audioData : List ℝ) : ℝ :=
  Real.sqrt ((audioData.map fun v => v * v).sum / (audioData.length : ℝ))

/-- `getAmplitude` (audioProcessor.ts line 64): `Math.min(1, rms / 0.5)`. -/
noncomputable def getAmplitude (audioData : List ℝ) : ℝ :=
  min 1 (rmsOf audioData / 0.5)

/-- The noise gate threshold of `reduceNoise` (audioProcessor.ts line 103):
`(amount / 100) * 0.1`. -/
noncomputable def noiseThreshold (amount : ℝ) : ℝ := (amount / 100) * 0.1

/-- `reduceNoise` (audioProcessor.ts line 100):
`result[i] = Math.abs(audioData[i]) < threshold ? 0 : audioData[i]`.
The min/max/avg statistics in the source only feed `debugLog`. -/
noncomputable def reduceNoise (audioData : List ℝ) (amount : ℝ) : List ℝ :=
  audioData.map fun x => if |x| < noiseThreshold amount then 0 else x

/-- `adjustVolume` (audioProcessor.ts line 184): each sample is multiplied by
the (unclamped) gain and hard-clipped: `Math.max(-1, Math.min(1, sample))`. -/
noncomputable def adjustVolume (audioData : List ℝ) (gain : ℝ) : List ℝ :=
  audioData.map fun x => max (-1) (min 1 (x * gain))

/-- The volume transform as the claim words it: the gain is first clamped to
the safe range [0, 3] the claim names, then applied and hard-clipped.  (The
source performs no such clamping; this definition exists to be compared with
`adjustVolume`.) -/
noncomputable def adjustVolumeClaim (audioData : List ℝ) (gain : ℝ) : List ℝ :=
  audioData.map fun x => max (-1) (min 1 (x * (max 0 (min 3 gain))))

/-- The single error `pitchShift` can raise: line 177,
`throw new Error('Failed to apply pitch shift')`. -/
inductive ShiftError where
  | failedToApplyPitchShift
deriving DecidableEq

/-- The `try { ... } catch` of `pitchShift` (lines 135-178): whatever exception
the body raises is replaced by the one distinguishable shift-failure error;
a successful body result passes through unchanged. -/
def pitchShiftCatch {ε : Type} {α : Type} (body : Except ε α) : Except ShiftError α :=
  match body with
  | .ok d => .ok d
  | .error _ => .error ShiftError.failedToApplyPitchShift

/-- One iteration of the hop loop of `pitchShift` (the body of the
`for (let i = 0; i < outputLength; i += hopSize)` loop, lines 136-166), given
the loop-carried state: `shiftedData` and the per-bin running `phase`
(mutable `Float32Array`s in JS, modelled as functions `ℕ → ℝ`).
`windowSize = 2048`, `hopSize = windowSize / 8 = 256`; `start` is
`Math.min(Math.floor(i * shiftFactor), audioData.length - windowSize)` over ℤ;
a negative `start` skips the iteration (`continue`), leaving the state
unchanged. -/
noncomputable def pitchShiftIter (audioData : List ℝ) (sampleRate shiftFactor : ℝ)
    (outputLength : ℕ) (i : ℕ) (shiftedData : ℕ → ℝ) (phase : ℕ → ℝ) :
    Except Unit ((ℕ → ℝ) × (ℕ → ℝ)) :=
  if min ⌊(i : ℝ) * shiftFactor⌋ ((audioData.length : ℤ) - 2048) < 0 then
    .ok (shiftedData, phase)
  else
    let start : ℤ := min ⌊(i : ℝ) * shiftFactor⌋ ((audioData.length : ℤ) - 2048)
    let window := (audioData.drop start.toNat).take 2048
    let windowed := applyHannWindow
      (if window.length < 2048 then List.replicate 2048 0 else window)
    match fftE windowed with
    | .error e => .error e
    | .ok phasors =>
      -- magnitudes j = sqrt(re^2 + im^2) for j < windowSize / 2 + 1 = 1025
      let magnitudes : ℕ → ℝ := fun j =>
        Real.sqrt ((phasors.getD j (0, 0)).1 ^ 2 + (phasors.getD j (0, 0)).2 ^ 2)
      -- phase[j] += (freqShift * 2 * PI) / sampleRate, freqShift = j*sr/2048*(sf-1)
      let phase' : ℕ → ℝ := fun j =>
        if j < 1025 then
          phase j + (((j : ℝ) * sampleRate / 2048 * (shiftFactor - 1)) * 2 * Real.pi) /
            sampleRate
        else phase j
      let shiftedPhasors : List (ℝ × ℝ) := (List.range 2048).map fun j =>
        if j < 1025 then
          (magnitudes j * Real.cos (phase' j), magnitudes j * Real.sin (phase' j))
        else (0, 0)
      match ifftE shiftedPhasors with
      | .error e => .error e
      | .ok outputPhasors =>
        -- for (j = 0; j < hopSize && i + j < outputLength; j++)
        --   shiftedData[i + j] += outputPhasors[j][0] / windowSize
        let shiftedData' : ℕ → ℝ := fun k =>
          if i ≤ k ∧ k < i + 256 ∧ k < outputLength then
            shiftedData k + (outputPhasors.getD (k - i) (0, 0)).1 / 2048
          else shiftedData k
        .ok (shiftedData', phase')

/-- The hop loop of `pitchShift` (lines 136-166): run `pitchShiftIter` at
`i = 0, 256, 512, ...` while `i < outputLength`, threading the state and
propagating any exception of the transforms. -/
noncomputable def pitchShiftLoop (audioData : List ℝ) (sampleRate shiftFactor : ℝ)
    (outputLength : ℕ) (i : ℕ) (shiftedData : ℕ → ℝ) (phase : ℕ → ℝ) :
    Except Unit ((ℕ → ℝ) × (ℕ → ℝ)) :=
  if _h : i < outputLength then
    match pitchShiftIter audioData sampleRate shiftFactor outputLength i shiftedData phase with
    | .error e => .error e
    | .ok (sd', ph') =>
      pitchShiftLoop audioData sampleRate shiftFactor outputLength (i + 256) sd' ph'
  else .ok (shiftedData, phase)
termination_by outputLength - i
decreasing_by omega

/-- The body of the `try` block (lines 135-174): run the hop loop, then
normalise the output so its peak absolute amplitude is 0.95.
`Math.max(...shiftedData.map(Math.abs))` yields -Infinity on an empty array in
JS; like the 0 returned here it fails the `> 0` test, so no normalisation
happens either way. -/
noncomputable def pitchShiftTry (audioData : List ℝ) (shiftFactor sampleRate : ℝ)
    (outputLength : ℕ) : Except Unit (List ℝ) :=
  match pitchShiftLoop audioData sampleRate shiftFactor outputLength 0
      (fun _ => 0) (fun _ => 0) with
  | .error e => .error e
  | .ok (sd, _) =>
    let shiftedData := (List.range outputLength).map sd
    let maxAmplitude := (shiftedData.map fun x => |x|).foldl max 0
    .ok (if 0 < maxAmplitude then shiftedData.map fun x => x / maxAmplitude * 0.95
      else shiftedData)

/-- `pitchShift` (audioProcessor.ts line 124): `semitones === 0` returns a copy
of the input before the try block; otherwise
`shiftFactor = 2^(semitones/12)`, `outputLength = floor(len / shiftFactor)`,
and the vocoder body runs under the catch that maps every exception to the
distinguished shift-failure error. -/
noncomputable def pitchShift (audioData : List ℝ) (semitones sampleRate : ℝ) :
    Except ShiftError (List ℝ) :=
  if semitones = 0 then .ok audioData
  else
    let shiftFactor := (2 : ℝ) ^ (semitones / 12)
    let outputLength := (⌊(audioData.length : ℝ) / shiftFactor⌋).toNat
    pitchShiftCatch (pitchShiftTry audioData shiftFactor sampleRate outputLength)

/-! ## phonemeDetector.ts -/

/-- JS `[...new Set(l)]`: duplicates removed, first occurrences kept in order. -/
def dedupFirst : List String → List String
  | [] => []
  | x :: xs => x :: dedupFirst (xs.filter fun y => decide (y ≠ x))
termination_by l => l.length
decreasing_by
  simp only [List.length_cons]
  exact Nat.lt_succ_of_le (List.length_filter_le _ _)

/-- `PhonemeDetector.autocorrelationPeak` (phonemeDetector.ts line 25): scan
lags `10 ≤ lag < frame.length / 2` keeping the lag of the strictly largest
correlation; `maxCorrelation` starts at `-Infinity`, modelled by `none` (every
first comparison succeeds). -/
noncomputable def autocorrelationPeak (frame : List ℝ) : ℕ :=
  let flen := frame.length
  let lags := (List.range flen).filter fun lag => decide (10 ≤ lag) && decide (2 * lag < flen)
  (lags.foldl
    (fun (st : Option ℝ × ℕ) lag =>
      let correlation := ∑ i ∈ Finset.range (flen - lag),
        frame.getD i 0 * frame.getD (i + lag) 0
      match st.1 with
      | none => (some correlation, lag)
      | some m => if m < correlation then (some correlation, lag) else st)
    (none, 0)).2

/-- `PhonemeDetector.detect` (phonemeDetector.ts line 2).  The `AudioBuffer`
argument is modelled by its first channel `buf` and its `sampleRate`.
`frameSize = Math.floor(sampleRate * 0.02)`; the frame loop runs
`i = 0, frameSize, 2*frameSize, ...` while `i < buf.length - frameSize`
(so `(buf.length - 1) / frameSize` frames when `frameSize < buf.length`).
For `frameSize ≤ 0` the JS loop makes no progress (it never terminates on a
buffer longer than `frameSize`); no frame is ever processed, modelled by `[]`.
When `energy > 0.01`, `freq = sampleRate / lag`: for `lag = 0` JS yields
Infinity and real division yields 0 — both fall outside every band below. -/
noncomputable def PhonemeDetector.detect (buf : List ℝ) (sampleRate : ℝ) : List String :=
  let frameSize : ℤ := ⌊sampleRate * 0.02⌋
  if 0 < frameSize then
    let f := frameSize.toNat
    let frameCount := if buf.length ≤ f then 0 else (buf.length - 1) / f
    let phonemes := (List.range frameCount).filterMap fun k =>
      let frame := (buf.drop (k * f)).take f
      let energy := (frame.map fun v => v * v).sum / (frameSize : ℝ)
      if energy > 0.01 then
        let lag := autocorrelationPeak frame
        let freq := sampleRate / (lag : ℝ)
        if 80 < freq ∧ freq < 300 then some ("ah")
        else if 300 ≤ freq ∧ freq < 600 then some ("ee")
        else if 600 ≤ freq ∧ freq < 1000 then some ("oo")
        else none
      else none
    (dedupFirst phonemes).take 5
  else []

/-! ## useAudioAnalyzer.ts -/

/-- The frame scan of `detectPhonemes` (useAudioAnalyzer.ts line 129):
`windowSize = Math.floor(sampleRate * 0.03)`, loop
`for (i = 0; i < audioData.length - windowSize; i += windowSize / 2)` — note
the step `windowSize / 2` is JS real division, so for odd `windowSize` the
index `i` is fractional and `Array.slice` truncates it.  The number of
iterations is therefore `⌈2 * (len - w) / w⌉` when `w < len`.  For
`windowSize ≤ 0` the loop either runs zero times or fails to advance (JS would
hang); modelled by `[]`. -/
noncomputable def detectPhonemesCollect (audioData : List ℝ) (sampleRate : ℝ) : List String :=
  let windowSize : ℤ := ⌊sampleRate * 0.03⌋
  if 0 < windowSize then
    let w := windowSize.toNat
    let iters := if (audioData.length : ℝ) ≤ (w : ℝ) then 0
      else ⌈(((audioData.length : ℝ) - (w : ℝ)) * 2) / (w : ℝ)⌉₊
    (List.range iters).filterMap fun (k : ℕ) =>
      let start := (⌊(k : ℝ) * ((w : ℝ) / 2)⌋).toNat
      let window := (audioData.drop start).take w
      let energy := (window.map fun v => v * v).sum / (w : ℝ)
      if energy > 0.01 then
        let freqs := (analyzeFrequency window sampleRate).frequencies
        let maxFreq := freqs.foldl max 0
        some (if maxFreq > 1000 then ("i") else if maxFreq > 500 then ("a") else ("r"))
      else none
  else []

/-- `detectPhonemes` (useAudioAnalyzer.ts line 129): dedupe, cap at 5, and fall
back to `['a', 'r', 'g']` when nothing was detected. -/
noncomputable def detectPhonemes (audioData : List ℝ) (sampleRate : ℝ) : List String :=
  let uniquePhonemes := (dedupFirst (detectPhonemesCollect audioData sampleRate)).take 5
  if 0 < uniquePhonemes.length then uniquePhonemes else [("a"), ("r"), ("g")]

/-- One emotion prototype of `predictSentiment` (useAudioAnalyzer.ts line 395). -/
structure Emotion where
  label : String
  pitchRange : ℝ × ℝ
  amplitudeRange : ℝ × ℝ
  clarityRange : ℝ × ℝ
  phonemes : List String

/-- The fixed emotion catalog (useAudioAnalyzer.ts lines 395-436). -/
noncomputable def emotions : List Emotion :=
  [⟨("sad"), (160, 180), (0, 0.02), (0.5, 0.6), [("e"), ("a")]⟩,
    ⟨("disgusted"), (180, 200), (0.03, 0.06), (0.35, 0.5), [("o"), ("r")]⟩,
    ⟨("happy"), (290, 320), (0.06, 0.12), (0.55, 0.7), [("i"), ("e")]⟩,
    ⟨("angry"), (260, 300), (0.02, 0.3), (0.65, 0.8), [("a"), ("r")]⟩,
    ⟨("fear"), (340, 360), (0.1, 0.15), (0.4, 0.55), [("i"), ("u")]⟩]

/-- The per-prototype score of `predictSentiment` (lines 438-465): 0.6 pitch
weight, 0.25 amplitude weight, 0.14 clarity weight with linear decay outside
the range, plus 0.01 times the matched-phoneme fraction. -/
noncomputable def emotionScore (e : Emotion) (pitch amplitude clarity : ℝ)
    (phonemes : List String) : ℝ :=
  let s1 := if e.pitchRange.1 ≤ pitch ∧ pitch ≤ e.pitchRange.2 then (0.6 : ℝ)
    else 0.6 * max 0 (1 - min |pitch - e.pitchRange.1| |pitch - e.pitchRange.2| / 15)
  let s2 := if e.amplitudeRange.1 ≤ amplitude ∧ amplitude ≤ e.amplitudeRange.2 then (0.25 : ℝ)
    else 0.25 * max 0 (1 - min |amplitude - e.amplitudeRange.1| |amplitude - e.amplitudeRange.2| / 0.02)
  let s3 := if e.clarityRange.1 ≤ clarity ∧ clarity ≤ e.clarityRange.2 then (0.14 : ℝ)
    else 0.14 * max 0 (1 - min |clarity - e.clarityRange.1| |clarity - e.clarityRange.2| / 0.1)
  let matchingPhonemes := (phonemes.filter fun p => decide (p ∈ e.phonemes)).length
  let s4 := 0.01 * ((matchingPhonemes : ℝ) / max 1 (phonemes.length : ℝ))
  s1 + s2 + s3 + s4

/-- `predictSentiment` (useAudioAnalyzer.ts line 393): score every prototype,
take the winner with `reduce((a, b) => a.weight > b.weight ? a : b)` (which
starts from the first element; the catalog is never empty, the `[]` branch is
unreachable), then report `0.9 + Math.min(1, topEmotion.weight) * 0.1`. -/
noncomputable def predictSentiment (pitch amplitude clarity : ℝ)
    (phonemes : List String) : String × ℝ :=
  let scored := emotions.map fun e => (e, emotionScore e pitch amplitude clarity phonemes)
  let top :=
    match scored with
    | x :: xs => xs.foldl (fun (a b : Emotion × ℝ) => if a.2 > b.2 then a else b) x
    | [] => (⟨("neutral"), (0, 0), (0, 0), (0, 0), []⟩, 0)
  let score := min 1 top.2
  (top.1.label, 0.9 + score * 0.1)

/-! ## Shared list lemmas -/

theorem getD_range_map {α : Type} (f : ℕ → α) {n i : ℕ} (d : α) (h : i < n) :
    ((List.range n).map f).getD i d = f i := by
  rw [List.getD_eq_getElem?_getD]
  simp [List.getElem?_range, h]

theorem getD_map_lt {α β : Type} (f : α → β) {l : List α} {i : ℕ} (d : β) (d' : α)
    (h : i < l.length) :
    (l.map f).getD i d = f (l.getD i d') := by
  rw [List.getD_eq_getElem?_getD, List.getD_eq_getElem?_getD, List.getElem?_map,
    List.getElem?_eq_getElem h]
  simp

/-! ## Claim C7 (applyHannWindow) -/

/-- Claim C7: `applyHannWindow` preserves the length and applies the Hann
multiplier, but in the degenerate case N = 1 it does NOT return the sample
unchanged: the multiplier formula evaluates its divisor `N - 1` to 0, the JS
code computes `cos(0/0) = cos(NaN) = NaN`, and under total real division the
multiplier is `0.5 * (1 - cos 0) = 0`, so the single sample 1 becomes 0, not
the required `w[0] = 1`. -/
theorem applyHannWindow_single_sample :
    (∀ data : List ℝ, (applyHannWindow data).length = data.length) ∧
      applyHannWindow [(1 : ℝ)] = [0] := by
  constructor
  · intro data
    simp [applyHannWindow]
  · simp only [applyHannWindow, List.mapIdx_cons, List.mapIdx_nil, List.length_cons,
      List.length_nil]
    norm_num

/-! ## Claim C6 (getAmplitude) -/

/-- Claim C6: on the empty buffer `getAmplitude` computes
`sqrt(sum / length) = sqrt(0 / 0)` — a division of 0 by 0 (NaN in JS, masked
to 0 by the total real division of this model), rather than a guarded safe
result. -/
theorem getAmplitude_empty_divides_by_zero :
    ([] : List ℝ).length = 0 ∧
      getAmplitude ([] : List ℝ) = min 1 (Real.sqrt ((0 : ℝ) / 0) / 0.5) ∧
      getAmplitude ([] : List ℝ) = 0 := by
  refine ⟨rfl, ?_, ?_⟩
  · simp [getAmplitude, rmsOf]
  · simp [getAmplitude, rmsOf]

/-! ## Claim C4 (reduceNoise) -/

/-- Claim C4: `reduceNoise` with amount 0 is the identity, with amount 100 it
never increases the RMS, samples below the threshold are zeroed, samples at or
above it pass unchanged, and the threshold is monotone in the amount. -/
theorem reduceNoise_spec (buf : List ℝ) (amount a b : ℝ) (i : ℕ)
    (hi : i < buf.length) (hab : a ≤ b) :
    reduceNoise buf 0 = buf ∧
      rmsOf (reduceNoise buf 100) ≤ rmsOf buf ∧
      (|buf.getD i 0| < noiseThreshold amount → (reduceNoise buf amount).getD i 0 = 0) ∧
      (noiseThreshold amount ≤ |buf.getD i 0| →
        (reduceNoise buf amount).getD i 0 = buf.getD i 0) ∧
      noiseThreshold a ≤ noiseThreshold b := by
  have hthr0 : noiseThreshold 0 = 0 := by simp [noiseThreshold]
  have hgetD : ∀ amt : ℝ, (reduceNoise buf amt).getD i 0 =
      if |buf.getD i 0| < noiseThreshold amt then 0 else buf.getD i 0 := by
    intro amt
    exact getD_map_lt _ 0 0 hi
  refine ⟨?_, ?_, ?_, ?_, ?_⟩
  · unfold reduceNoise
    rw [hthr0]
    conv_rhs => rw [← List.map_id buf]
    apply List.map_congr_left
    intro x _
    rw [if_neg (not_lt.mpr (abs_nonneg x))]
    rfl
  · have hlen : (reduceNoise buf 100).length = buf.length := by simp [reduceNoise]
    have hsum : ((reduceNoise buf 100).map fun v => v * v).sum ≤
        (buf.map fun v => v * v).sum := by
      unfold reduceNoise
      rw [List.map_map]
      apply List.sum_le_sum
      intro x _
      simp only [Function.comp_apply]
      split
      · simpa using mul_self_nonneg x
      · exact le_refl _
    unfold rmsOf
    rw [hlen]
    apply Real.sqrt_le_sqrt
    rw [div_eq_mul_inv, div_eq_mul_inv]
    exact mul_le_mul_of_nonneg_right hsum (inv_nonneg.mpr (Nat.cast_nonneg _))
  · intro h
    rw [hgetD amount, if_pos h]
  · intro h
    rw [hgetD amount, if_neg (not_lt.mpr h)]
  · unfold noiseThreshold
    gcongr

/-- Witness for `reduceNoise_spec` at a concrete buffer and amounts. -/
theorem reduceNoise_spec_witness :
    0 < List.length [(1 : ℝ) / 2] ∧ (0 : ℝ) ≤ 0 ∧
      (reduceNoise [(1 : ℝ) / 2] 0 = [(1 : ℝ) / 2] ∧
        rmsOf (reduceNoise [(1 : ℝ) / 2] 100) ≤ rmsOf [(1 : ℝ) / 2] ∧
        (|List.getD [(1 : ℝ) / 2] 0 0| < noiseThreshold 50 →
          (reduceNoise [(1 : ℝ) / 2] 50).getD 0 0 = 0) ∧
        (noiseThreshold 50 ≤ |List.getD [(1 : ℝ) / 2] 0 0| →
          (reduceNoise [(1 : ℝ) / 2] 50).getD 0 0 = List.getD [(1 : ℝ) / 2] 0 0) ∧
        noiseThreshold 0 ≤ noiseThreshold 0) :=
  ⟨by simp, le_refl 0, reduceNoise_spec [(1 : ℝ) / 2] 50 0 0 0 (by simp) (le_refl 0)⟩

/-! ## Claim C5 (adjustVolume) -/

/-- Counterexample to claim C5: `adjustVolume` does not clamp the gain to
[0, 3] (or to anything): at gain 5 on the sample 1/10 it returns 1/2 where the
claimed clamped formula yields 3/10. -/
theorem adjustVolume_gain_not_clamped :
    adjustVolume [(1 : ℝ) / 10] 5 ≠ adjustVolumeClaim [(1 : ℝ) / 10] 5 := by
  simp only [adjustVolume, adjustVolumeClaim, List.map_cons, List.map_nil, ne_eq,
    List.cons.injEq, and_true]
  norm_num [min_def, max_def]

/-- Claim C5 as amended: each sample is multiplied by the gain itself (no
clamping of the gain) and then hard-clipped to [-1, 1]; the length is
preserved and every output sample lies in [-1, 1]. -/
theorem adjustVolume_amended (buf : List ℝ) (gain : ℝ) (_hg : 0 ≤ gain) (i : ℕ)
    (hi : i < buf.length) :
    (adjustVolume buf gain).length = buf.length ∧
      (adjustVolume buf gain).getD i 0 = max (-1) (min 1 (buf.getD i 0 * gain)) ∧
      -1 ≤ (adjustVolume buf gain).getD i 0 ∧ (adjustVolume buf gain).getD i 0 ≤ 1 := by
  have hg : (adjustVolume buf gain).getD i 0 = max (-1) (min 1 (buf.getD i 0 * gain)) :=
    getD_map_lt _ 0 0 hi
  refine ⟨by simp [adjustVolume], hg, ?_, ?_⟩
  · rw [hg]
    exact le_max_left _ _
  · rw [hg]
    exact max_le (by norm_num) (min_le_left _ _)

/-- Witness for `adjustVolume_amended`. -/
theorem adjustVolume_amended_witness :
    (0 : ℝ) ≤ 2 ∧ 0 < List.length [(3 : ℝ)] ∧
      ((adjustVolume [(3 : ℝ)] 2).length = List.length [(3 : ℝ)] ∧
        (adjustVolume [(3 : ℝ)] 2).getD 0 0 = max (-1) (min 1 (List.getD [(3 : ℝ)] 0 0 * 2)) ∧
        -1 ≤ (adjustVolume [(3 : ℝ)] 2).getD 0 0 ∧ (adjustVolume [(3 : ℝ)] 2).getD 0 0 ≤ 1) :=
  ⟨zero_le_two, by simp, adjustVolume_amended [(3 : ℝ)] 2 zero_le_two 0 (by simp)⟩

/-! ## Claim C2 (analyzeFrequency) -/

theorem windowedSignal_length (buf : List ℝ) :
    (windowedSignal buf).length = fftSizeOf buf.length := by
  unfold windowedSignal
  simp only [List.length_append, List.length_take, List.length_replicate, applyHannWindow,
    List.length_mapIdx]
  omega

theorem dft_getD (xs : List ℝ) {i : ℕ} (hi : i < xs.length) :
    (dft xs).getD i (0, 0) = (dftRe xs i, dftIm xs i) := by
  unfold dft
  exact getD_range_map _ _ hi

theorem getD_zero_of_all_zero {l : List ℝ} (h : ∀ x ∈ l, x = 0) (n : ℕ) :
    l.getD n 0 = 0 := by
  rcases lt_or_ge n l.length with hn | hn
  · rw [List.getD_eq_getElem _ _ hn]
    exact h _ (List.getElem_mem hn)
  · exact List.getD_eq_default _ _ hn

theorem dftRe_all_zero {xs : List ℝ} (h : ∀ x ∈ xs, x = 0) (k : ℕ) : dftRe xs k = 0 := by
  unfold dftRe
  refine Finset.sum_eq_zero fun n _ => ?_
  rw [getD_zero_of_all_zero h, zero_mul]

theorem dftIm_all_zero {xs : List ℝ} (h : ∀ x ∈ xs, x = 0) (k : ℕ) : dftIm xs k = 0 := by
  unfold dftIm
  rw [neg_eq_zero]
  refine Finset.sum_eq_zero fun n _ => ?_
  rw [getD_zero_of_all_zero h, zero_mul]

theorem dft_getD_zero {xs : List ℝ} (h : ∀ x ∈ xs, x = 0) (i : ℕ) :
    (dft xs).getD i (0, 0) = (0, 0) := by
  rcases lt_or_ge i xs.length with hi | hi
  · rw [dft_getD xs hi, dftRe_all_zero h, dftIm_all_zero h]
  · refine List.getD_eq_default _ _ ?_
    unfold dft
    simpa using hi

theorem applyHannWindow_all_zero {l : List ℝ} (h : ∀ x ∈ l, x = 0) :
    ∀ y ∈ applyHannWindow l, y = 0 := by
  intro y hy
  unfold applyHannWindow at hy
  obtain ⟨i, hlen, rfl⟩ := List.mem_iff_getElem.mp hy
  rw [List.getElem_mapIdx]
  rw [h _ (List.getElem_mem _)]
  simp

theorem windowedSignal_all_zero (n : ℕ) :
    ∀ x ∈ windowedSignal (List.replicate n (0 : ℝ)), x = 0 := by
  intro x hx
  unfold windowedSignal at hx
  rcases List.mem_append.mp hx with h | h
  · exact applyHannWindow_all_zero (fun y hy => List.eq_of_mem_replicate hy) x
      (List.take_subset _ _ h)
  · exact List.eq_of_mem_replicate h

theorem fftSizeOf_two : fftSizeOf 2 = 2 := by
  have hlog : Nat.log 2 2 = 1 :=
    Nat.log_eq_of_pow_le_of_lt_pow (by norm_num) (by norm_num)
  rw [fftSizeOf, if_neg (by norm_num), hlog, pow_one]

theorem fftSizeOf_bounds {len : ℕ} (h : 1 ≤ len) :
    (∃ k, fftSizeOf len = 2 ^ k) ∧ fftSizeOf len ≤ len ∧ len < 2 * fftSizeOf len := by
  have hne : len ≠ 0 := by omega
  unfold fftSizeOf
  rw [if_neg hne]
  refine ⟨⟨Nat.log 2 len, rfl⟩, Nat.pow_log_le_self 2 hne, ?_⟩
  have hp := Nat.lt_pow_succ_log_self (by norm_num : 1 < 2) len
  rw [pow_succ] at hp
  omega

/-- Claim C2: `analyzeFrequency` returns two sequences of length `fftSize / 2`
with `fftSize` the largest power of two that is at most the buffer length;
frequency bin `i` is `i * sampleRate / fftSize`; magnitude `i` is
`sqrt(re^2 + im^2) / (fftSize / 2)` over the transform of the truncated
windowed signal; and on an all-zero buffer every magnitude is 0.  (The JS
`isNaN` guard is inert in this real-valued model, which has no NaN.) -/
theorem analyzeFrequency_spec (buf : List ℝ) (sr : ℝ) (i n : ℕ)
    (hi : i < fftSizeOf buf.length / 2) (hlen : 1 ≤ buf.length) :
    (analyzeFrequency buf sr).frequencies.length = fftSizeOf buf.length / 2 ∧
      (analyzeFrequency buf sr).magnitudes.length = fftSizeOf buf.length / 2 ∧
      (analyzeFrequency buf sr).frequencies.getD i 0 =
        ((i : ℝ) * sr) / (fftSizeOf buf.length : ℝ) ∧
      (analyzeFrequency buf sr).magnitudes.getD i 0 =
        Real.sqrt (dftRe (windowedSignal buf) i ^ 2 + dftIm (windowedSignal buf) i ^ 2) /
          ((fftSizeOf buf.length : ℝ) / 2) ∧
      (∃ k, fftSizeOf buf.length = 2 ^ k) ∧
      fftSizeOf buf.length ≤ buf.length ∧ buf.length < 2 * fftSizeOf buf.length ∧
      ∀ m ∈ (analyzeFrequency (List.replicate n 0) sr).magnitudes, m = 0 := by
  obtain ⟨hpow, hle, hlt⟩ := fftSizeOf_bounds hlen
  have hi' : i < (windowedSignal buf).length := by
    rw [windowedSignal_length]
    exact lt_of_lt_of_le hi (Nat.div_le_self _ _)
  refine ⟨?_, ?_, ?_, ?_, hpow, hle, hlt, ?_⟩
  · simp only [analyzeFrequency, List.length_map, List.length_range]
  · simp only [analyzeFrequency, List.length_map, List.length_range]
  · simp only [analyzeFrequency]
    exact getD_range_map _ _ hi
  · simp only [analyzeFrequency]
    rw [getD_range_map _ _ hi, dft_getD _ hi']
  · intro m hm
    simp only [analyzeFrequency, List.mem_map, List.mem_range] at hm
    obtain ⟨j, -, rfl⟩ := hm
    rw [dft_getD_zero (windowedSignal_all_zero n)]
    simp

/-- Witness for `analyzeFrequency_spec` at the buffer [1, 2]. -/
theorem analyzeFrequency_spec_witness :
    0 < fftSizeOf (List.length [(1 : ℝ), 2]) / 2 ∧ 1 ≤ List.length [(1 : ℝ), 2] ∧
      (analyzeFrequency [(1 : ℝ), 2] 1).frequencies.length =
        fftSizeOf (List.length [(1 : ℝ), 2]) / 2 :=
  ⟨by norm_num [fftSizeOf_two], by norm_num,
    (analyzeFrequency_spec [(1 : ℝ), 2] 1 0 1 (by norm_num [fftSizeOf_two]) (by norm_num)).1⟩

/-! ## Claim C3 (detectPitch) -/

theorem analyzeFrequency_frequencies_length (buf : List ℝ) (sr : ℝ) :
    (analyzeFrequency buf sr).frequencies.length = fftSizeOf buf.length / 2 := by
  simp only [analyzeFrequency, List.length_map, List.length_range]

theorem analyzeFrequency_frequencies_getD (buf : List ℝ) (sr : ℝ) {i : ℕ}
    (hi : i < fftSizeOf buf.length / 2) :
    (analyzeFrequency buf sr).frequencies.getD i 0 =
      ((i : ℝ) * sr) / (fftSizeOf buf.length : ℝ) := by
  simp only [analyzeFrequency]
  exact getD_range_map _ _ hi

theorem insertDesc_perm (x : Peak) (l : List Peak) : insertDesc x l ~ x :: l := by
  induction l with
  | nil => simp [insertDesc]
  | cons y ys ih =>
    unfold insertDesc
    by_cases h : x.value < y.value
    · rw [if_pos h]
      exact (ih.cons y).trans (List.Perm.swap x y ys)
    · rw [if_neg h]

theorem pairwise_insertDesc (x : Peak) (l : List Peak)
    (hl : l.Pairwise fun a b => b.value ≤ a.value) :
    (insertDesc x l).Pairwise fun a b => b.value ≤ a.value := by
  induction l with
  | nil => simp [insertDesc]
  | cons y ys ih =>
    rw [List.pairwise_cons] at hl
    obtain ⟨hy, hys⟩ := hl
    unfold insertDesc
    by_cases hxy : x.value < y.value
    · rw [if_pos hxy]
      rw [List.pairwise_cons]
      refine ⟨?_, ih hys⟩
      intro z hz
      rcases List.mem_cons.mp ((insertDesc_perm x ys).mem_iff.mp hz) with rfl | hz'
      · exact le_of_lt hxy
      · exact hy z hz'
    · rw [if_neg hxy]
      rw [List.pairwise_cons]
      refine ⟨?_, List.pairwise_cons.mpr ⟨hy, hys⟩⟩
      intro z hz
      rcases List.mem_cons.mp hz with rfl | hz'
      · exact not_lt.mp hxy
      · exact le_trans (hy z hz') (not_lt.mp hxy)

theorem pairwise_sortDesc (l : List Peak) :
    (sortDesc l).Pairwise fun a b => b.value ≤ a.value := by
  induction l with
  | nil => simp [sortDesc]
  | cons x xs ih => exact pairwise_insertDesc x (sortDesc xs) ih

theorem find?_insertDesc (p : Peak → Bool) (x : Peak) (l : List Peak)
    (hl : l.Pairwise fun a b => b.value ≤ a.value) :
    (insertDesc x l).find? p =
      match l.find? p with
      | none => if p x then some x else none
      | some y => if x.value < y.value then some y
          else if p x then some x else some y := by
  induction l with
  | nil => cases hpx : p x <;> simp [insertDesc, List.find?, hpx]
  | cons y ys ih =>
    rw [List.pairwise_cons] at hl
    obtain ⟨hy, hys⟩ := hl
    unfold insertDesc
    by_cases hxy : x.value < y.value
    · rw [if_pos hxy]
      cases hpy : p y with
      | true =>
        rw [List.find?_cons_of_pos _ hpy, List.find?_cons_of_pos _ hpy]
        simp [hxy]
      | false =>
        rw [List.find?_cons_of_neg _ (by simp [hpy]), List.find?_cons_of_neg _ (by simp [hpy]),
          ih hys]
    · rw [if_neg hxy]
      cases hfind : List.find? p (y :: ys) with
      | none =>
        cases hpx : p x with
        | true =>
          rw [List.find?_cons_of_pos _ hpx]
          simp [hfind]
        | false =>
          rw [List.find?_cons_of_neg _ (by simp [hpx])]
          simp [hfind]
      | some z =>
        have hz : z ∈ y :: ys := List.mem_of_find?_eq_some hfind
        have hzy : z.value ≤ y.value := by
          rcases List.mem_cons.mp hz with rfl | hz'
          · exact le_refl _
          · exact hy z hz'
        have hnxz : ¬x.value < z.value := not_lt.mpr (le_trans hzy (not_lt.mp hxy))
        cases hpx : p x with
        | true =>
          rw [List.find?_cons_of_pos _ hpx]
          simp [hfind, hnxz]
        | false =>
          rw [List.find?_cons_of_neg _ (by simp [hpx])]
          simp [hfind, hnxz]

theorem find?_sortDesc (p : Peak → Bool) (l : List Peak) :
    (sortDesc l).find? p = argmaxFirst (l.filter p) := by
  induction l with
  | nil => simp [sortDesc, argmaxFirst]
  | cons x xs ih =>
    have hstep := find?_insertDesc p x (sortDesc xs) (pairwise_sortDesc xs)
    rw [sortDesc, hstep, ih, List.filter_cons]
    cases hpx : p x with
    | true =>
      cases hax : argmaxFirst (xs.filter p) with
      | none => simp [hax, argmaxFirst]
      | some y => by_cases hv : x.value < y.value <;> simp [hax, hv, argmaxFirst]
    | false =>
      cases hax : argmaxFirst (xs.filter p) with
      | none => simp [hax]
      | some y => by_cases hv : x.value < y.value <;> simp [hax, hv]

theorem head?_sortDesc (l : List Peak) : (sortDesc l).head? = argmaxFirst l := by
  have h := find?_sortDesc (fun _ => true) l
  rw [List.filter_true] at h
  rw [← h]
  cases sortDesc l <;> simp [List.find?]

theorem argmaxFirst_mem {l : List Peak} {p : Peak} (h : argmaxFirst l = some p) :
    p ∈ l := by
  induction l with
  | nil => simp [argmaxFirst] at h
  | cons x xs ih =>
    cases hax : argmaxFirst xs with
    | none =>
      simp only [argmaxFirst, hax, Option.some.injEq] at h
      subst h
      exact List.mem_cons_self x xs
    | some y =>
      by_cases hv : x.value < y.value
      · simp only [argmaxFirst, hax, if_pos hv, Option.some.injEq] at h
        subst h
        exact List.mem_cons_of_mem x (ih hax)
      · simp only [argmaxFirst, hax, if_neg hv, Option.some.injEq] at h
        subst h
        exact List.mem_cons_self x xs

theorem peaksOf_freq_nonneg {buf : List ℝ} {sr : ℝ} (hsr : 0 ≤ sr) :
    ∀ q ∈ peaksOf buf sr, 0 ≤ q.freq := by
  intro q hq
  simp only [peaksOf, List.mem_map, List.mem_filter, List.mem_range] at hq
  obtain ⟨i, ⟨hin, -⟩, rfl⟩ := hq
  rw [analyzeFrequency_frequencies_length] at hin
  simp only
  rw [analyzeFrequency_frequencies_getD buf sr hin]
  have h1 : (0 : ℝ) ≤ (i : ℝ) * sr := mul_nonneg (Nat.cast_nonneg i) hsr
  exact div_nonneg h1 (Nat.cast_nonneg _)

/-- Claim C3: `detectPitch` selects exactly as the claim describes — among the
local maxima of the harmonic product spectrum above the salience threshold
(collected in ascending frequency order), the first-by-frequency candidate of
maximal hps value within [50, 500] Hz, else the first-by-frequency candidate
of maximal hps value overall, else 0 — and the result is non-negative for a
non-negative sample rate.  (`claimSelectPitch`/`argmaxFirst` implement the
claim's ranking words; `detectPitch` is the source's stable sort plus find.) -/
theorem detectPitch_spec (buf : List ℝ) (sr : ℝ) (hsr : 0 ≤ sr) :
    detectPitch buf sr = claimSelectPitch (peaksOf buf sr) ∧ 0 ≤ detectPitch buf sr := by
  have hmain : detectPitch buf sr = claimSelectPitch (peaksOf buf sr) := by
    simp only [detectPitch, claimSelectPitch]
    rw [find?_sortDesc, head?_sortDesc]
    cases hband : argmaxFirst ((peaksOf buf sr).filter bandPred) with
    | some p =>
      have hp := argmaxFirst_mem hband
      have hpb : bandPred p = true := (List.mem_filter.mp hp).2
      have h50 : (50 : ℝ) ≤ p.freq := by
        unfold bandPred at hpb
        simp only [Bool.and_eq_true, decide_eq_true_eq] at hpb
        exact hpb.1
      have hne : p.freq ≠ 0 := ne_of_gt (lt_of_lt_of_le (by norm_num) h50)
      simp [jsOrZero, hne]
    | none =>
      cases hall : argmaxFirst (peaksOf buf sr) with
      | none => simp [jsOrZero]
      | some q => by_cases hq : q.freq = 0 <;> simp [jsOrZero, hq]
  refine ⟨hmain, ?_⟩
  rw [hmain]
  unfold claimSelectPitch
  cases hband : argmaxFirst ((peaksOf buf sr).filter bandPred) with
  | some p =>
    exact peaksOf_freq_nonneg hsr p (List.mem_of_mem_filter (argmaxFirst_mem hband))
  | none =>
    cases hall : argmaxFirst (peaksOf buf sr) with
    | none => exact le_refl 0
    | some q => exact peaksOf_freq_nonneg hsr q (argmaxFirst_mem hall)

/-- Witness for `detectPitch_spec`. -/
theorem detectPitch_spec_witness :
    (0 : ℝ) ≤ 1 ∧
      (detectPitch [] 1 = claimSelectPitch (peaksOf [] 1) ∧ 0 ≤ detectPitch [] 1) :=
  ⟨zero_le_one, detectPitch_spec [] 1 zero_le_one⟩

/-! ## Claims C1 and C8 (pitchShift) -/

theorem pitchShiftIter_skip (audioData : List ℝ) (sampleRate shiftFactor : ℝ)
    (outputLength i : ℕ) (sd ph : ℕ → ℝ)
    (hstart : min ⌊(i : ℝ) * shiftFactor⌋ ((audioData.length : ℤ) - 2048) < 0) :
    pitchShiftIter audioData sampleRate shiftFactor outputLength i sd ph =
      Except.ok (sd, ph) := by
  unfold pitchShiftIter
  rw [if_pos hstart]

theorem pitchShiftLoop_skip (audioData : List ℝ) (sampleRate shiftFactor : ℝ)
    (outputLength i : ℕ) (sd ph : ℕ → ℝ) (h : i < outputLength)
    (hstart : min ⌊(i : ℝ) * shiftFactor⌋ ((audioData.length : ℤ) - 2048) < 0) :
    pitchShiftLoop audioData sampleRate shiftFactor outputLength i sd ph =
      pitchShiftLoop audioData sampleRate shiftFactor outputLength (i + 256) sd ph := by
  rw [pitchShiftLoop.eq_def, dif_pos h,
    pitchShiftIter_skip audioData sampleRate shiftFactor outputLength i sd ph hstart]

theorem pitchShiftLoop_done (audioData : List ℝ) (sampleRate shiftFactor : ℝ)
    (outputLength i : ℕ) (sd ph : ℕ → ℝ) (h : ¬i < outputLength) :
    pitchShiftLoop audioData sampleRate shiftFactor outputLength i sd ph =
      Except.ok (sd, ph) := by
  rw [pitchShiftLoop.eq_def, dif_neg h]

/-- Claim C1 as amended: pitch shifting by exactly 0 semitones returns the
input buffer (as an unmodified copy). -/
theorem pitchShift_zero_identity (buf : List ℝ) (sr : ℝ) :
    pitchShift buf 0 sr = Except.ok buf := by
  simp [pitchShift]

/-- Counterexample to claim C1: the code special-cases only `semitones === 0`.
For the tiny nonzero `semitones = 1/1000` (within any reasonable epsilon of 0)
on the buffer [1, 1, 1, 1] at 16 kHz, the full vocoder path runs:
`shiftFactor = 2^(1/12000)` lies in (1, 4/3), so `outputLength = 3` and, the
buffer being shorter than the 2048 window, every hop is skipped and the output
is [0, 0, 0] — not an unmodified copy of the input (even the length differs). -/
theorem pitchShift_small_semitones_not_identity :
    pitchShift [(1 : ℝ), 1, 1, 1] (1 / 1000) 16000 = Except.ok [0, 0, 0] ∧
      pitchShift [(1 : ℝ), 1, 1, 1] (1 / 1000) 16000 ≠ Except.ok [(1 : ℝ), 1, 1, 1] := by
  have h2pos : (0 : ℝ) < 2 := by norm_num
  have hsfpos : (0 : ℝ) < (2 : ℝ) ^ ((1 / 1000 : ℝ) / 12) := Real.rpow_pos_of_pos h2pos _
  have hsf_gt1 : (1 : ℝ) < (2 : ℝ) ^ ((1 / 1000 : ℝ) / 12) :=
    (Real.one_lt_rpow_iff_of_pos h2pos).mpr (Or.inl ⟨by norm_num, by norm_num⟩)
  have hsf_lt : (2 : ℝ) ^ ((1 / 1000 : ℝ) / 12) < 4 / 3 := by
    have hstep : (2 : ℝ) ^ ((1 / 1000 : ℝ) / 12) < (2 : ℝ) ^ ((1 : ℝ) / 3) :=
      (Real.rpow_lt_rpow_left_iff (by norm_num : (1 : ℝ) < 2)).mpr (by norm_num)
    have hcube : ((2 : ℝ) ^ ((1 : ℝ) / 3)) ^ (3 : ℕ) = 2 := by
      rw [← Real.rpow_natCast ((2 : ℝ) ^ ((1 : ℝ) / 3)) 3,
        ← Real.rpow_mul (by norm_num : (0 : ℝ) ≤ 2)]
      norm_num
    have h43 : (2 : ℝ) ^ ((1 : ℝ) / 3) < 4 / 3 := by
      refine lt_of_pow_lt_pow_left₀ 3 (by norm_num : (0 : ℝ) ≤ 4 / 3) ?_
      rw [hcube]
      norm_num
    linarith
  have hout : ⌊(4 : ℝ) / ((2 : ℝ) ^ ((1 / 1000 : ℝ) / 12))⌋ = (3 : ℤ) := by
    rw [Int.floor_eq_iff]
    constructor
    · rw [show ((3 : ℤ) : ℝ) = 3 by norm_num, le_div_iff₀ hsfpos]
      nlinarith
    · rw [div_lt_iff₀ hsfpos]
      push_cast
      nlinarith
  have hloop : pitchShiftLoop [(1 : ℝ), 1, 1, 1] 16000 ((2 : ℝ) ^ ((1 / 1000 : ℝ) / 12)) 3 0
      (fun _ => 0) (fun _ => 0) = Except.ok (fun _ => (0 : ℝ), fun _ => (0 : ℝ)) := by
    rw [pitchShiftLoop_skip _ _ _ _ _ _ _ (by norm_num) ?_]
    · exact pitchShiftLoop_done _ _ _ _ _ _ _ (by norm_num)
    · simp only [Nat.cast_zero, zero_mul, Int.floor_zero, List.length_cons, List.length_nil]
      norm_num [min_def]
  have htry : pitchShiftTry [(1 : ℝ), 1, 1, 1] ((2 : ℝ) ^ ((1 / 1000 : ℝ) / 12)) 16000 3 =
      Except.ok [0, 0, 0] := by
    simp only [pitchShiftTry, hloop]
    norm_num [List.range_succ]
  have hmain : pitchShift [(1 : ℝ), 1, 1, 1] (1 / 1000) 16000 = Except.ok [0, 0, 0] := by
    simp only [pitchShift, List.length_cons, List.length_nil, Nat.reduceAdd, Nat.cast_ofNat]
    rw [if_neg (by norm_num : ¬(1 / 1000 : ℝ) = 0), hout]
    rw [show ((3 : ℤ).toNat) = 3 from rfl, htry]
    rfl
  refine ⟨hmain, ?_⟩
  rw [hmain]
  simp only [ne_eq, Except.ok.injEq, List.cons.injEq]
  norm_num

/-- Claim C8: the catch of `pitchShift` turns every exception of the vocoder
body into the one distinguishable shift-failure error, never into a successful
result (in particular never into the unshifted input buffer). -/
theorem pitchShiftCatch_surfaces_failure {ε : Type} (body : Except ε (List ℝ)) (e : ε)
    (h : body = .error e) :
    pitchShiftCatch body = .error ShiftError.failedToApplyPitchShift ∧
      ∀ d : List ℝ, pitchShiftCatch body ≠ .ok d := by
  subst h
  exact ⟨rfl, fun d hd => by simp [pitchShiftCatch] at hd⟩

/-- Witness for `pitchShiftCatch_surfaces_failure` at a concrete failing body. -/
theorem pitchShiftCatch_surfaces_failure_witness :
    (Except.error () : Except Unit (List ℝ)) = Except.error () ∧
      (pitchShiftCatch (Except.error () : Except Unit (List ℝ)) =
          .error ShiftError.failedToApplyPitchShift ∧
        ∀ d : List ℝ, pitchShiftCatch (Except.error () : Except Unit (List ℝ)) ≠ .ok d) :=
  ⟨rfl, pitchShiftCatch_surfaces_failure _ () rfl⟩

/-! ## Claim C9 (phoneme classifiers) -/

theorem dedupFirst_sublist : ∀ l : List String, dedupFirst l <+ l
  | [] => by simp [dedupFirst]
  | x :: xs => by
    simp only [dedupFirst]
    exact ((dedupFirst_sublist _).trans (List.filter_sublist _)).cons₂ x
termination_by l => l.length
decreasing_by
  simp only [List.length_cons]
  exact Nat.lt_succ_of_le (List.length_filter_le _ _)

theorem dedupFirst_nodup : ∀ l : List String, (dedupFirst l).Nodup
  | [] => by simp [dedupFirst]
  | x :: xs => by
    simp only [dedupFirst]
    rw [List.nodup_cons]
    refine ⟨?_, dedupFirst_nodup _⟩
    intro hmem
    have hx := (dedupFirst_sublist _).subset hmem
    simp at hx
termination_by l => l.length
decreasing_by
  simp only [List.length_cons]
  exact Nat.lt_succ_of_le (List.length_filter_le _ _)

/-- Counterexample to claim C9: the `PhonemeDetector.detect` classifier has no
non-empty fallback — on the silent 4-sample buffer at sample rate 100 every
20 ms frame has zero energy, so it returns the empty list. -/
theorem phonemeDetector_detect_can_be_empty :
    PhonemeDetector.detect [(0 : ℝ), 0, 0, 0] 100 = [] := by
  have hfs : (⌊(100 : ℝ) * 0.02⌋ : ℤ) = 2 := by norm_num
  simp only [PhonemeDetector.detect, hfs]
  norm_num
  have h2 : Int.toNat (2 : ℤ) = 2 := rfl
  simp only [h2]
  norm_num [List.filterMap_cons, List.range_succ, List.take_succ_cons, List.take_zero,
    dedupFirst]

/-- Claim C9 as amended, proved of the classifier the orchestrator actually
calls (`detectPhonemes` in useAudioAnalyzer.ts): its result is deduplicated
(a sublist of the collected symbols, so first-occurrence order is preserved,
unless the fallback fires), has length at most 5, and is never empty. -/
theorem detectPhonemes_amended (buf : List ℝ) (sr : ℝ) :
    (detectPhonemes buf sr).Nodup ∧ (detectPhonemes buf sr).length ≤ 5 ∧
      detectPhonemes buf sr ≠ [] ∧
      (detectPhonemes buf sr <+ detectPhonemesCollect buf sr ∨
        detectPhonemes buf sr = [("a"), ("r"), ("g")]) := by
  simp only [detectPhonemes]
  by_cases h : 0 < ((dedupFirst (detectPhonemesCollect buf sr)).take 5).length
  · rw [if_pos h]
    refine ⟨?_, ?_, ?_, Or.inl ?_⟩
    · exact List.Nodup.sublist (List.take_sublist _ _) (dedupFirst_nodup _)
    · exact List.length_take_le _ _
    · exact List.ne_nil_of_length_pos h
    · exact (List.take_sublist _ _).trans (dedupFirst_sublist _)
  · rw [if_neg h]
    refine ⟨?_, ?_, ?_, Or.inr rfl⟩
    · simp
    · simp
    · simp

/-! ## Claim C10 (predictSentiment) -/

theorem emotionScore_nonneg (e : Emotion) (pitch amplitude clarity : ℝ)
    (phonemes : List String) : 0 ≤ emotionScore e pitch amplitude clarity phonemes := by
  unfold emotionScore
  refine add_nonneg (add_nonneg (add_nonneg ?_ ?_) ?_) ?_
  · split
    · norm_num
    · exact mul_nonneg (by norm_num) (le_max_left 0 _)
  · split
    · norm_num
    · exact mul_nonneg (by norm_num) (le_max_left 0 _)
  · split
    · norm_num
    · exact mul_nonneg (by norm_num) (le_max_left 0 _)
  · refine mul_nonneg (by norm_num) (div_nonneg (Nat.cast_nonneg _) ?_)
    exact le_trans zero_le_one (le_max_left 1 _)

theorem foldl_best_mem (x : Emotion × ℝ) (xs : List (Emotion × ℝ)) :
    xs.foldl (fun (a b : Emotion × ℝ) => if a.2 > b.2 then a else b) x ∈ x :: xs := by
  induction xs generalizing x with
  | nil => simp
  | cons y ys ih =>
    rw [List.foldl_cons]
    by_cases h : x.2 > y.2
    · rw [if_pos h]
      have := ih x
      simp only [List.mem_cons] at this ⊢
      tauto
    · rw [if_neg h]
      have := ih y
      simp only [List.mem_cons] at this ⊢
      tauto

/-- Claim C10: the confidence reported by `predictSentiment` always lies in
[0.9, 1]: it is `0.9 + min(1, winningScore) * 0.1` with a non-negative winning
score. -/
theorem predictSentiment_confidence_range (pitch amplitude clarity : ℝ)
    (phonemes : List String) :
    0.9 ≤ (predictSentiment pitch amplitude clarity phonemes).2 ∧
      (predictSentiment pitch amplitude clarity phonemes).2 ≤ 1 := by
  unfold predictSentiment
  cases hs : emotions.map fun e => (e, emotionScore e pitch amplitude clarity phonemes) with
  | nil =>
    simp only [hs]
    norm_num
  | cons x xs =>
    simp only [hs]
    have hmem := foldl_best_mem x xs
    rw [← hs] at hmem
    obtain ⟨e, -, heq⟩ := List.mem_map.mp hmem
    have htop : 0 ≤ (xs.foldl (fun (a b : Emotion × ℝ) => if a.2 > b.2 then a else b) x).2 := by
      rw [← heq]
      exact emotionScore_nonneg e pitch amplitude clarity phonemes
    have hmin1 : min 1 (xs.foldl (fun (a b : Emotion × ℝ) => if a.2 > b.2 then a else b) x).2 ≤ 1 :=
      min_le_left _ _
    have hmin0 : 0 ≤ min 1 (xs.foldl (fun (a b : Emotion × ℝ) => if a.2 > b.2 then a else b) x).2 :=
      le_min zero_le_one htop
    constructor <;> nlinarith

end SoundCraft
